import Mathlib

/-!
Verification of the PySymex evaluator suite: the symex data model, the
environment/closure/primitive model, the direct (structurally recursive)
evaluator, the stack-machine evaluator, the primitive library and the
parser/printer, shallowly embedded from the Python sources.

Python exceptions are modelled by an explicit error type; a `fuel`
constructor stands for exhaustion of the recursion budget that the shallow
embedding threads through otherwise-unbounded recursion (the Python code
has no such budget; every theorem quantifies over or fixes a sufficient
budget).
-/

namespace PySymex

/-- A symbolic expression: an atom carrying text, or a list of symexes
(`SAtom` / `SList` in `symex/symex.py`). -/
inductive Symex where
  | atom (text : String)
  | list (items : List Symex)
  deriving Repr

/-- Structural equality of symexes, mirroring the dataclass equality of
`SAtom`/`SList` (text equality on atoms, elementwise on lists). -/
def Symex.beq : Symex → Symex → Bool
  | .atom t, .atom u => t == u
  | .list xs, .list ys => beqList xs ys
  | _, _ => false
where
  beqList : List Symex → List Symex → Bool
    | [], [] => true
    | x :: xs, y :: ys => Symex.beq x y && beqList xs ys
    | _, _ => false

instance : BEq Symex := ⟨Symex.beq⟩

theorem Symex.beqList_iff :
    ∀ xs ys : List Symex, (∀ x ∈ xs, ∀ b, Symex.beq x b = true ↔ x = b) →
      (Symex.beq.beqList xs ys = true ↔ xs = ys) := by
  intro xs
  induction xs with
  | nil => intro ys _; cases ys <;> simp [Symex.beq.beqList]
  | cons x xs ih =>
    intro ys h
    cases ys with
    | nil => simp [Symex.beq.beqList]
    | cons y ys =>
      simp only [Symex.beq.beqList, Bool.and_eq_true, List.cons.injEq]
      rw [h x (by simp), ih ys (fun z hz b => h z (by simp [hz]) b)]

theorem Symex.beq_iff_eq_aux :
    ∀ n, ∀ a b : Symex, sizeOf a ≤ n → (Symex.beq a b = true ↔ a = b) := by
  intro n
  induction n with
  | zero =>
    intro a b h
    exfalso
    cases a <;> simp at h
  | succ n ih =>
    intro a b h
    match a, b with
    | .atom t, .atom u => simp [Symex.beq]
    | .atom t, .list ys => simp [Symex.beq]
    | .list xs, .atom u => simp [Symex.beq]
    | .list xs, .list ys =>
      simp only [Symex.beq, Symex.list.injEq]
      refine Symex.beqList_iff xs ys (fun x hx b => ih x b ?_)
      have h1 : sizeOf x < sizeOf xs := List.sizeOf_lt_of_mem hx
      have h2 : sizeOf (Symex.list xs) = 1 + sizeOf xs := by simp
      omega

theorem Symex.beq_iff_eq (a b : Symex) : Symex.beq a b = true ↔ a = b :=
  Symex.beq_iff_eq_aux (sizeOf a) a b le_rfl

instance : DecidableEq Symex := fun a b =>
  decidable_of_iff (Symex.beq a b = true) (Symex.beq_iff_eq a b)

instance : LawfulBEq Symex where
  rfl := by intro a; exact (Symex.beq_iff_eq a a).mpr rfl
  eq_of_beq := by intro a b h; exact (Symex.beq_iff_eq a b).mp h

/-- Truthiness (`SAtom.__bool__` / `SList.__bool__`): an atom is falsy iff
its text is `:false`; every list is truthy. -/
def Symex.toBool : Symex → Bool
  | .atom t => t != ":false"
  | .list _ => true

/-- `SAtom.is_data_atom`: the text is nonempty and starts with `:`. -/
def isDataAtomText (t : String) : Bool :=
  1 ≤ t.length && t.get 0 == ':'

def Symex.is_data_atom : Symex → Bool
  | .atom t => isDataAtomText t
  | .list _ => false

/-- The textual rendering of a symex as a list of characters
(`SAtom.__str__` / `SList.__str__`): an atom renders as its text, a list
as `(` + space-joined renderings + `)`. -/
def Symex.renderL : Symex → List Char
  | .atom t => t.data
  | .list items => '(' :: joinItems items ++ [')']
where
  joinItems : List Symex → List Char
    | [] => []
    | [x] => Symex.renderL x
    | x :: y :: rest => Symex.renderL x ++ ' ' :: joinItems (y :: rest)

/-- `str(s)` for a symex. -/
def strS (s : Symex) : String := String.mk s.renderL

/-- Python exceptions raised by the embedded code, distinguished by
exception class and message. `fuel` marks exhaustion of the embedding's
recursion budget and corresponds to no Python exception. -/
inductive Err where
  | valueError (msg : String)
  | indexError (msg : String)
  | keyError (key : String)
  | notImplementedError (msg : String)
  | fuel
  deriving DecidableEq, Repr

abbrev Res := Except Err Symex

/-- `Binding` (`types.py` / `symex.py`): a variable name (an atom, carried
here as its text) and a value. -/
structure Binding where
  name : String
  value : Symex
  deriving DecidableEq, Repr

/-- `Environment`: an ordered sequence of bindings; lookup scans from the
front. -/
structure Environment where
  bindings : List Binding
  deriving DecidableEq, Repr

namespace Environment

/-- `Environment.__contains__`. -/
def contains (env : Environment) (name : String) : Bool :=
  env.bindings.any (fun b => b.name == name)

/-- `Environment.__getitem__` of `types.py`: first matching binding from
the front, else `ValueError` naming the variable. -/
def getitem (env : Environment) (name : String) : Res :=
  match env.bindings.find? (fun b => b.name == name) with
  | some b => .ok b.value
  | none =>
    .error (.valueError ("the name \"" ++ name ++ "\" is not in this environment"))

/-- `Environment.__getitem__` of the older `symex/symex.py` (identical scan,
different message). -/
def getitemS (env : Environment) (name : String) : Res :=
  match env.bindings.find? (fun b => b.name == name) with
  | some b => .ok b.value
  | none => .error (.valueError "the given name is not in this environment")

/-- `Environment.extend_with`: new bindings in front of the old chain. -/
def extend_with (env : Environment) (new_bindings : List Binding) : Environment :=
  ⟨new_bindings ++ env.bindings⟩

end Environment

/-- `Binding.to_symex`: the two-element list `(name value)`. -/
def Binding.to_symex (b : Binding) : Symex :=
  .list [.atom b.name, b.value]

/-- `Binding.from_symex` (`types.py`): a two-element list whose first
element is an atom. -/
def Binding.from_symex : Symex → Except Err Binding
  | .atom _ => .error (.valueError "tried to treat an atom as a binding")
  | .list [.atom name, value] => .ok ⟨name, value⟩
  | .list _ => .error (.valueError "not a well-formed binding")

/-- `Environment.to_symex`: the list of binding symexes. -/
def Environment.to_symex (env : Environment) : Symex :=
  .list (env.bindings.map Binding.to_symex)

/-- Convert each element of a list through `Binding.from_symex`, stopping
at the first failure (the Python list comprehension). -/
def bindingsFromSymex : List Symex → Except Err (List Binding)
  | [] => .ok []
  | s :: rest => do
    let b ← Binding.from_symex s
    let bs ← bindingsFromSymex rest
    .ok (b :: bs)

/-- `Environment.from_symex` (`types.py`): an atom is refused, otherwise each
element is decoded as a binding. -/
def Environment.from_symex : Symex → Except Err Environment
  | .atom _ => .error (.valueError "tried to treat an atom as an environment")
  | .list items => do
    let bs ← bindingsFromSymex items
    .ok ⟨bs⟩

/-- `Closure` (`types.py`): parameter atoms (as texts), optional self-name,
body, captured environment. -/
structure Closure where
  params : List String
  name : Option String
  body : Symex
  env : Environment
  deriving DecidableEq, Repr

/-- `Primitive` (`primitives.py`): the name of a native function. -/
structure Primitive where
  name : String
  deriving DecidableEq, Repr

/-- `Closure.to_symex`: `(:closure name-list params body env)`. -/
def Closure.to_symex (c : Closure) : Symex :=
  .list [.atom ":closure",
         .list (match c.name with | some n => [.atom n] | none => []),
         .list (c.params.map .atom),
         c.body,
         c.env.to_symex]

/-- Decode a list of parameters, each of which must be an atom
(`assert_atom` in `types.py`). -/
def paramsAtoms : List Symex → Except Err (List String)
  | [] => .ok []
  | .atom t :: rest => do
    let ts ← paramsAtoms rest
    .ok (t :: ts)
  | .list _ :: _ => .error (.valueError "this parameter isn't an atom")

/-- `Closure.from_symex` (`types.py`): match the 5-element `:closure` shape,
decode the optional name, the parameter atoms and the environment. -/
def Closure.from_symex : Symex → Except Err Closure
  | .atom _ => .error (.valueError "this is an atom, not a closure")
  | .list (.atom ":closure" :: rest) =>
    match rest with
    | [.list name_list, .list params, body, envSy] => do
      let name ← match name_list with
                 | [.atom n] => .ok (some n)
                 | [] => .ok (none : Option String)
                 | _ => .error (.valueError "this closure's name list isn't well-formed")
      let ps ← paramsAtoms params
      let env ← Environment.from_symex envSy
      .ok ⟨ps, name, body, env⟩
    | _ => .error (.valueError "this closure isn't well-formed")
  | .list _ => .error (.valueError "this isn't a closure")

/-- `Primitive.to_symex`: `(:primitive name)`. -/
def Primitive.to_symex (p : Primitive) : Symex :=
  .list [.atom ":primitive", .atom p.name]

/-- `Primitive.from_symex` (`primitives.py`). -/
def Primitive.from_symex : Symex → Except Err Primitive
  | .list [.atom ":primitive", .atom name] => .ok ⟨name⟩
  | .list (.atom ":primitive" :: _) =>
    .error (.valueError "this is an ill-formed primitive function")
  | _ => .error (.valueError "this isn't a primitive function")

/-- A decoded function value (`Function` in `types.py`): closure or
primitive. -/
inductive FunctionV where
  | closure (c : Closure)
  | primitive (p : Primitive)
  deriving DecidableEq, Repr

/-- `Function.from_symex` (`types.py`): dispatch on the leading marker
atom. -/
def Function.from_symex (s : Symex) : Except Err FunctionV :=
  match s with
  | .atom _ => .error (.valueError "tried to treat an atom as a function")
  | .list (.atom ":closure" :: _) => do
    let c ← Closure.from_symex s
    .ok (.closure c)
  | .list (.atom ":primitive" :: _) => do
    let p ← Primitive.from_symex s
    .ok (.primitive p)
  | .list _ => .error (.valueError "not a recognizable function")

/-- `Closure.build_env` (`types.py`): fail unless the argument count matches
the parameter count; bind parameters to arguments pairwise, prepend a
self-name binding (to the closure's own symex encoding) when the closure is
named, and extend the captured environment with these bindings. -/
def Closure.build_env (c : Closure) (args : List Symex) : Except Err Environment :=
  let self_symex := c.to_symex
  if args.length ≠ c.params.length then
    .error (.valueError "closure got wrong number of arguments")
  else
    let bindings := (c.params.zip args).map (fun pa => Binding.mk pa.1 pa.2)
    let bindings := match c.name with
                    | some n => Binding.mk n self_symex :: bindings
                    | none => bindings
    .ok (c.env.extend_with bindings)

/-! ## Primitive library

`primitives.py` (used by the machine evaluator) and the older copies inside
`interpreter.py` (used by the direct evaluator). `Not`, `=`, `List` and
`Error` are identical in both; `Cons`, `Head` and `Tail` differ in their
failure behaviour. -/

namespace Prim

/-- `Not` (both generations): `:true` iff the argument is the atom
`:false`. One argument is unpacked (`x, = args`). -/
def NotP (args : List Symex) : Res :=
  match args with
  | [x] => if x == .atom ":false" then .ok (.atom ":true") else .ok (.atom ":false")
  | [] => .error (.valueError "not enough values to unpack (expected 1, got 0)")
  | _ => .error (.valueError "too many values to unpack (expected 1)")

/-- `=` (both generations): true iff all arguments are structurally equal
(vacuously true for zero or one argument). -/
def Equal (args : List Symex) : Res :=
  match args with
  | [] => .ok (.atom ":true")
  | a :: rest =>
    if rest.all (fun other => a == other) then .ok (.atom ":true")
    else .ok (.atom ":false")

/-- `List` (both generations): collect the arguments into a list. -/
def ListP (args : List Symex) : Res := .ok (.list args)

/-- `Error` (both generations): always fails, carrying the rendering of the
first argument (`args[0]` raises IndexError when there is none). -/
def ErrorP (args : List Symex) : Res :=
  match args with
  | [] => .error (.indexError "list index out of range")
  | a :: _ => .error (.valueError ("Symex error: " ++ strS a))

/-- `Cons` of `primitives.py`: prepend the head to the tail list; the tail
must be a list and exactly two arguments are required. -/
def Cons (args : List Symex) : Res :=
  match args with
  | [head, .list tail] => .ok (.list (head :: tail))
  | [_, _] => .error (.valueError "the Cons function got something that isn't a list")
  | _ => .error (.valueError "the Cons function got the wrong number of arguments")

/-- `Head` of `primitives.py`: the first element of a non-empty list
argument; empty lists and non-lists fail with distinct messages. -/
def Head (args : List Symex) : Res :=
  match args with
  | [.list (head :: _)] => .ok head
  | [.list []] => .error (.valueError "the Head function got an empty list")
  | [.atom _] => .error (.valueError "the Head function got something that isn't a list")
  | [] => .error (.valueError "the Head function didn't get any arguments")
  | _ => .error (.valueError "the Head function got too many arguments")

/-- `Tail` of `primitives.py`: the list argument minus its first element. -/
def Tail (args : List Symex) : Res :=
  match args with
  | [.list (_ :: tail)] => .ok (.list tail)
  | [.list []] => .error (.valueError "the Tail function got an empty list")
  | [.atom _] => .error (.valueError "the Tail function got something that isn't a list")
  | [] => .error (.valueError "the Tail function didn't get any arguments")
  | _ => .error (.valueError "the Tail function got too many arguments")

/-- `Is-Data-Atom` of `primitives.py`. -/
def IsDataAtom (args : List Symex) : Res :=
  match args with
  | [x] => if x.is_data_atom then .ok (.atom ":true") else .ok (.atom ":false")
  | [] => .error (.valueError "not enough values to unpack (expected 1, got 0)")
  | _ => .error (.valueError "too many values to unpack (expected 1)")

/-- `Cons` of `interpreter.py`: `head, tail = args` then `tail.as_list`
(ValueError on an atom tail; no arity message of its own). -/
def ConsOld (args : List Symex) : Res :=
  match args with
  | [head, .list tail] => .ok (.list (head :: tail))
  | [_, .atom _] => .error (.valueError "this is an atom, not a list")
  | [_] => .error (.valueError "not enough values to unpack (expected 2, got 1)")
  | [] => .error (.valueError "not enough values to unpack (expected 2, got 0)")
  | _ => .error (.valueError "too many values to unpack (expected 2)")

/-- `Head` of `interpreter.py`: `list, = args` then `list.as_list[0]`
(IndexError on an empty list, ValueError on an atom). -/
def HeadOld (args : List Symex) : Res :=
  match args with
  | [.list (head :: _)] => .ok head
  | [.list []] => .error (.indexError "list index out of range")
  | [.atom _] => .error (.valueError "this is an atom, not a list")
  | [] => .error (.valueError "not enough values to unpack (expected 1, got 0)")
  | _ => .error (.valueError "too many values to unpack (expected 1)")

/-- `Tail` of `interpreter.py`: `list.as_list[1:]` — slicing never fails,
so the tail of the empty list is the empty list. -/
def TailOld (args : List Symex) : Res :=
  match args with
  | [.list items] => .ok (.list items.tail)
  | [.atom _] => .error (.valueError "this is an atom, not a list")
  | [] => .error (.valueError "not enough values to unpack (expected 1, got 0)")
  | _ => .error (.valueError "too many values to unpack (expected 1)")

end Prim

/-- The primitive table of `primitives.py` (`primitive_dict`), keyed by
name, in registration order. -/
def primitiveDict (name : String) : Option (List Symex → Res) :=
  match name with
  | "Not" => some Prim.NotP
  | "=" => some Prim.Equal
  | "Cons" => some Prim.Cons
  | "Head" => some Prim.Head
  | "Tail" => some Prim.Tail
  | "List" => some Prim.ListP
  | "Error" => some Prim.ErrorP
  | "Is-Data-Atom" => some Prim.IsDataAtom
  | _ => none

/-- The primitive table of `interpreter.py` (`Primitive.dict`): seven
entries, no `Is-Data-Atom`. -/
def primitiveDictOld (name : String) : Option (List Symex → Res) :=
  match name with
  | "Not" => some Prim.NotP
  | "=" => some Prim.Equal
  | "Cons" => some Prim.ConsOld
  | "Head" => some Prim.HeadOld
  | "Tail" => some Prim.TailOld
  | "List" => some Prim.ListP
  | "Error" => some Prim.ErrorP
  | _ => none

/-- `Primitive.apply` of `primitives.py`: look the name up in the table
(`KeyError` when absent) and run it on the evaluated arguments. -/
def Primitive.apply (p : Primitive) (args : List Symex) : Res :=
  match primitiveDict p.name with
  | some f => f args
  | none => .error (.keyError p.name)

/-- `Primitive.apply` of `interpreter.py` (the direct evaluator's table). -/
def Primitive.applyOld (p : Primitive) (args : List Symex) : Res :=
  match primitiveDictOld p.name with
  | some f => f args
  | none => .error (.keyError p.name)

/-- One `name ↦ (:primitive name)` binding of the bootstrap environment. -/
def primBinding (name : String) : Binding :=
  ⟨name, .list [.atom ":primitive", .atom name]⟩

/-- `primitive_env` of `primitives.py`: the eight primitives in
registration order, then the constant binding `Nil ↦ ()`. -/
def primitive_env : Environment :=
  ⟨[primBinding "Not", primBinding "=", primBinding "Cons", primBinding "Head",
    primBinding "Tail", primBinding "List", primBinding "Error",
    primBinding "Is-Data-Atom", ⟨"Nil", .list []⟩]⟩

/-! ## The direct (structurally recursive) evaluator

`SAtom.eval_in` / `SList.eval_in` of `symex/symex.py` together with the
`BuiltinForms`, `Function`, `Closure` and `Primitive` classes of
`symex/interpreter.py` that they dispatch into. Recursion is threaded
through a fuel budget (`dEval`). -/

/-- `Binding.from_symex` of the older `symex/symex.py`: unpack two elements,
then `name.as_atom`. -/
def Binding.from_symexOld : Symex → Except Err Binding
  | .atom _ => .error (.valueError "tried to treat an atom as a binding")
  | .list [.atom name, value] => .ok ⟨name, value⟩
  | .list [.list _, _] => .error (.valueError "this is a list, not an atom")
  | .list [_] => .error (.valueError "not enough values to unpack (expected 2, got 1)")
  | .list [] => .error (.valueError "not enough values to unpack (expected 2, got 0)")
  | .list _ => .error (.valueError "too many values to unpack (expected 2)")

def bindingsFromSymexOld : List Symex → Except Err (List Binding)
  | [] => .ok []
  | s :: rest => do
    let b ← Binding.from_symexOld s
    let bs ← bindingsFromSymexOld rest
    .ok (b :: bs)

/-- `Environment.from_symex` of the older `symex/symex.py`. -/
def Environment.from_symexOld : Symex → Except Err Environment
  | .atom _ => .error (.valueError "tried to treat an atom as an environment")
  | .list items => do
    let bs ← bindingsFromSymexOld items
    .ok ⟨bs⟩

/-- `[param.as_atom for param in params]` in `interpreter.py`: every
parameter must be an atom. -/
def paramsAtomsOld : List Symex → Except Err (List String)
  | [] => .ok []
  | .atom t :: rest => do
    let ts ← paramsAtomsOld rest
    .ok (t :: ts)
  | .list _ :: _ => .error (.valueError "this is a list, not an atom")

/-- `Closure.from_symex` of `interpreter.py`: unpack five elements, check
the tag, decode the name list, the parameters and the environment. -/
def Closure.from_symexOld : Symex → Except Err Closure
  | .atom _ => .error (.valueError "tried to treat an atom as a closure")
  | .list [tag, name_list, params, body, envSy] => do
    if tag ≠ .atom ":closure" then
      .error (.valueError "this list isn't a closure")
    else do
      let name ← match name_list with
                 | .atom _ => .error (.valueError "this is an atom, not a list")
                 | .list [] => .ok (none : Option String)
                 | .list [.atom n] => .ok (some n)
                 | .list [.list _] => .error (.valueError "this is a list, not an atom")
                 | .list _ => .error (.valueError "too many values to unpack (expected 1)")
      let ps ← match params with
               | .atom _ => .error (.valueError "this is an atom, not a list")
               | .list l => paramsAtomsOld l
      let env ← Environment.from_symexOld envSy
      .ok ⟨ps, name, body, env⟩
  | .list l =>
    if l.length < 5 then
      .error (.valueError ("not enough values to unpack (expected 5, got "
        ++ toString l.length ++ ")"))
    else .error (.valueError "too many values to unpack (expected 5)")

/-- `Primitive.from_symex` of `interpreter.py`: unpack two elements, check
the tag, take the name atom. -/
def Primitive.from_symexOld : Symex → Except Err Primitive
  | .atom _ => .error (.valueError "tried to treat an atom as a primitive function")
  | .list [tag, name] =>
    if tag ≠ .atom ":primitive" then
      .error (.valueError "this list isn't a primitive function")
    else match name with
         | .atom n => .ok ⟨n⟩
         | .list _ => .error (.valueError "this is a list, not an atom")
  | .list [_] => .error (.valueError "not enough values to unpack (expected 2, got 1)")
  | .list [] => .error (.valueError "not enough values to unpack (expected 2, got 0)")
  | .list _ => .error (.valueError "too many values to unpack (expected 2)")

/-- `Function.from_symex` of `interpreter.py`: index the first element
(IndexError on the empty list) and dispatch on the tag. -/
def Function.from_symexOld (s : Symex) : Except Err FunctionV :=
  match s with
  | .atom _ => .error (.valueError "tried to treat an atom as a function")
  | .list [] => .error (.indexError "list index out of range")
  | .list (first :: _) =>
    if first = .atom ":closure" then do
      let c ← Closure.from_symexOld s
      .ok (.closure c)
    else if first = .atom ":primitive" then do
      let p ← Primitive.from_symexOld s
      .ok (.primitive p)
    else .error (.valueError "not a recognizable function")

/-- `SAtom.eval_in` (`symex/symex.py`): a data atom is itself; a bound
variable is looked up; anything else raises NotImplementedError. -/
def atomEvalIn (t : String) (env : Environment) : Res :=
  if isDataAtomText t then .ok (.atom t)
  else if env.contains t then env.getitemS t
  else .error (.notImplementedError "don't know how to evaluate this atom")

/-- The keys of `BuiltinForms.dict` in `interpreter.py`. -/
def isDirectBuiltin (name : String) : Bool :=
  match name with
  | "Quote" | "Lambda" | "Function" | "And" | "Or" | "Cond" | "Where" => true
  | _ => false

/-- `BuiltinForms.And`: evaluate left to right, returning the first falsy
value; an empty form yields `:true`. The accumulator holds the last value. -/
def andLoop (recur : Symex → Environment → Res) (acc : Symex) :
    List Symex → Environment → Res
  | [], _ => .ok acc
  | e :: rest, env => do
    let r ← recur e env
    if r.toBool then andLoop recur r rest env else .ok r

/-- `BuiltinForms.Or`: evaluate left to right, returning the first truthy
value; an empty form yields `:false`. -/
def orLoop (recur : Symex → Environment → Res) (acc : Symex) :
    List Symex → Environment → Res
  | [], _ => .ok acc
  | e :: rest, env => do
    let r ← recur e env
    if r.toBool then .ok r else orLoop recur r rest env

/-- `BuiltinForms.Cond`: for each `(condition action)` pair, evaluate the
condition and, when truthy, evaluate and return the action. -/
def condLoop (recur : Symex → Environment → Res) :
    List Symex → Environment → Res
  | [], _ => .error (.valueError "none of the conditions were true")
  | pair :: rest, env =>
    match pair with
    | .atom _ => .error (.valueError "this is an atom, not a list")
    | .list [condition, action] => do
      let c ← recur condition env
      if c.toBool then recur action env else condLoop recur rest env
    | .list [_] => .error (.valueError "not enough values to unpack (expected 2, got 1)")
    | .list [] => .error (.valueError "not enough values to unpack (expected 2, got 0)")
    | .list _ => .error (.valueError "too many values to unpack (expected 2)")

/-- `BuiltinForms.Where`: evaluate each binding's value in the environment
accumulated so far, extend, then evaluate the body in the final
environment. -/
def whereLoop (recur : Symex → Environment → Res) (body : Symex) :
    List Symex → Environment → Res
  | [], env => recur body env
  | b :: rest, env =>
    match b with
    | .atom _ => .error (.valueError "this is an atom, not a list")
    | .list [nameSy, valueExpr] => do
      let result ← recur valueExpr env
      match nameSy with
      | .atom n => whereLoop recur body rest (env.extend_with [⟨n, result⟩])
      | .list _ => .error (.valueError "this is a list, not an atom")
    | .list [_] => .error (.valueError "not enough values to unpack (expected 2, got 1)")
    | .list [] => .error (.valueError "not enough values to unpack (expected 2, got 0)")
    | .list _ => .error (.valueError "too many values to unpack (expected 2)")

/-- `BuiltinForms.Lambda` / `BuiltinForms.Function` closure construction. -/
def makeClosureOld (name : Option String) (params : Symex) (body : Symex)
    (env : Environment) : Res :=
  match params with
  | .atom _ => .error (.valueError "argument list should be a list")
  | .list l => do
    let ps ← paramsAtomsOld l
    .ok (Closure.to_symex ⟨ps, name, body, env⟩)

/-- Dispatch of `BuiltinForms.dict` (`interpreter.py`): the special form
receives the raw argument expressions and the current environment. -/
def builtinFormsCall (recur : Symex → Environment → Res) (name : String)
    (argExprs : List Symex) (env : Environment) : Res :=
  match name with
  | "Quote" =>
    match argExprs with
    | [e] => .ok e
    | [] => .error (.valueError "not enough values to unpack (expected 1, got 0)")
    | _ => .error (.valueError "too many values to unpack (expected 1)")
  | "Lambda" =>
    match argExprs with
    | [params, body] => makeClosureOld none params body env
    | [_] => .error (.valueError "not enough values to unpack (expected 2, got 1)")
    | [] => .error (.valueError "not enough values to unpack (expected 2, got 0)")
    | _ => .error (.valueError "too many values to unpack (expected 2)")
  | "Function" =>
    match argExprs with
    | [nameSy, params, body] =>
      match nameSy with
      | .atom n => makeClosureOld (some n) params body env
      | .list _ => .error (.valueError "function name should be an atom")
    | [_, _] => .error (.valueError "not enough values to unpack (expected 3, got 2)")
    | [_] => .error (.valueError "not enough values to unpack (expected 3, got 1)")
    | [] => .error (.valueError "not enough values to unpack (expected 3, got 0)")
    | _ => .error (.valueError "too many values to unpack (expected 3)")
  | "And" => andLoop recur (.atom ":true") argExprs env
  | "Or" => orLoop recur (.atom ":false") argExprs env
  | "Cond" => condLoop recur argExprs env
  | "Where" =>
    match argExprs with
    | body :: bindings => whereLoop recur body bindings env
    | [] => .error (.valueError "not enough values to unpack (expected at least 1, got 0)")
  | _ => .error (.keyError name)

/-- `Closure.apply` of `interpreter.py`: check the arity, bind parameters
(prepending the self binding for a named closure), extend the captured
environment and evaluate the body there. -/
def closureApplyCore (recur : Symex → Environment → Res) (c : Closure)
    (args : List Symex) : Res :=
  if args.length ≠ c.params.length then
    .error (.valueError "closure got wrong number of arguments")
  else
    let bindings := (c.params.zip args).map (fun pa => Binding.mk pa.1 pa.2)
    let bindings := match c.name with
                    | some n => Binding.mk n c.to_symex :: bindings
                    | none => bindings
    recur c.body (c.env.extend_with bindings)

/-- `Symex.apply` (`symex/symex.py`): decode the function value with
`interpreter.py`'s `Function.from_symex` and apply it. -/
def applyCore (recur : Symex → Environment → Res) (funcVal : Symex)
    (args : List Symex) : Res := do
  match ← Function.from_symexOld funcVal with
  | .closure c => closureApplyCore recur c args
  | .primitive p => Primitive.applyOld p args

/-- The call case of `SList.eval_in`: evaluate every element in order, then
apply the first value to the rest. -/
def evalCall (recur : Symex → Environment → Res) (first : Symex)
    (rest : List Symex) (env : Environment) : Res := do
  let f ← recur first env
  let args ← evalArgsLoop recur rest env
  applyCore recur f args
where
  evalArgsLoop (recur : Symex → Environment → Res) :
      List Symex → Environment → Except Err (List Symex)
    | [], _ => .ok []
    | e :: es, env => do
      let v ← recur e env
      let vs ← evalArgsLoop recur es env
      .ok (v :: vs)

/-- One layer of `eval_in` (`symex/symex.py`): atoms via `SAtom.eval_in`,
the empty list fails, a builtin head dispatches to the special form, and
anything else is an ordinary call. -/
def evalCore (recur : Symex → Environment → Res) : Symex → Environment → Res
  | .atom t, env => atomEvalIn t env
  | .list [], _ => .error (.valueError "tried to evaluate an empty list")
  | .list (first :: rest), env =>
    match first with
    | .atom name =>
      if isDirectBuiltin name then builtinFormsCall recur name rest env
      else evalCall recur first rest env
    | .list _ => evalCall recur first rest env

/-- The direct evaluator with a fuel budget: each nested `eval_in` call
consumes one unit. -/
def dEval : Nat → Symex → Environment → Res
  | 0, _, _ => .error .fuel
  | n + 1, e, env => evalCore (dEval n) e env

/-! ## The stack-machine evaluator

`symex/interpreters/machine/__init__.py` (frames `Evaluate`,
`EvaluateForCall`, `GotValueForCall` and the driving loop `Machine.eval_in`)
with the builtin-form frames of `symex/interpreters/machine_builtins.py`
(`Quote`, `Lambda`, `Function`, `Cond`, `Where` — the machine table has no
`And`/`Or`). The work stack is modelled with its top at the head, so the
frames returned by a step are pushed reversed. -/

/-- A frame of the machine's explicit work stack. -/
inductive StackFrame where
  | Evaluate (expr : Symex) (env : Environment)
  | EvaluateForCall (expr : List Symex) (values : List Symex) (env : Environment)
  | GotValueForCall (expr : List Symex) (values : List Symex) (env : Environment)
  | CondFrame (cases : List (List Symex)) (env : Environment)
  | GotValueForCond (outcome_if_true : Symex) (remaining_cases : List (List Symex))
      (env : Environment)
  | WhereFrame (body_expr : Symex) (binding_exprs : List Symex) (env : Environment)
  | GotValueForWhere (body_expr : Symex) (binding_exprs : List Symex)
      (env : Environment) (new_binding_name : String)
  deriving Repr

/-- `FrameResult`: frames to push (in source order) and an optional result. -/
structure FrameResult where
  new_frames : List StackFrame := []
  result_expr : Option Symex := none
  deriving Repr

/-- `atom_value` (`machine/__init__.py`): a data atom is itself, anything
else is looked up with `types.py`'s `Environment.__getitem__`. -/
def atom_value (t : String) (env : Environment) : Res :=
  if isDataAtomText t then .ok (.atom t) else env.getitem t

/-- `make_closure` of `machine_builtins.py`. -/
def make_closure (name : Option Symex) (params : Symex) (body : Symex)
    (env : Environment) : Res := do
  let nameT ← match name with
              | none => .ok (none : Option String)
              | some (.atom n) => .ok (some n)
              | some (.list _) => .error (.valueError "function name should be an atom")
  match params with
  | .atom _ => .error (.valueError "argument list should be a list")
  | .list l => do
    let ps ← paramsAtomsOld l
    .ok (Closure.to_symex ⟨ps, nameT, body, env⟩)

/-- `[case.as_list for case in arg_exprs]` in `Cond_`. -/
def caseLists : List Symex → Except Err (List (List Symex))
  | [] => .ok []
  | .atom _ :: _ => .error (.valueError "this is an atom, not a list")
  | .list c :: rest => do
    let cs ← caseLists rest
    .ok (c :: cs)

/-- The keys of the machine's `builtins` dict (`machine_builtins.py`). -/
def isMachineBuiltin (name : String) : Bool :=
  match name with
  | "Quote" | "Lambda" | "Function" | "Cond" | "Where" => true
  | _ => false

/-- Dispatch of the machine's builtin forms (`machine_builtins.py`). -/
def machineBuiltinCall (name : String) (argExprs : List Symex)
    (env : Environment) : Except Err FrameResult :=
  match name with
  | "Quote" =>
    match argExprs with
    | [e] => .ok { result_expr := some e }
    | [] => .error (.valueError "not enough values to unpack (expected 1, got 0)")
    | _ => .error (.valueError "too many values to unpack (expected 1)")
  | "Lambda" =>
    match argExprs with
    | [params, body] => do
      let c ← make_closure none params body env
      .ok { result_expr := some c }
    | [_] => .error (.valueError "not enough values to unpack (expected 2, got 1)")
    | [] => .error (.valueError "not enough values to unpack (expected 2, got 0)")
    | _ => .error (.valueError "too many values to unpack (expected 2)")
  | "Function" =>
    match argExprs with
    | [nameSy, params, body] => do
      let c ← make_closure (some nameSy) params body env
      .ok { result_expr := some c }
    | [_, _] => .error (.valueError "not enough values to unpack (expected 3, got 2)")
    | [_] => .error (.valueError "not enough values to unpack (expected 3, got 1)")
    | [] => .error (.valueError "not enough values to unpack (expected 3, got 0)")
    | _ => .error (.valueError "too many values to unpack (expected 3)")
  | "Cond" => do
    let cs ← caseLists argExprs
    .ok { new_frames := [.CondFrame cs env] }
  | "Where" =>
    match argExprs with
    | body :: bindings => .ok { new_frames := [.WhereFrame body bindings env] }
    | [] => .error (.valueError "not enough values to unpack (expected at least 1, got 0)")
  | _ => .error (.keyError name)

/-- One frame's `call` method: `Evaluate.call`, `EvaluateForCall.call`,
`GotValueForCall.call` (`machine/__init__.py`) and the `Cond`/`Where` frames
(`machine_builtins.py`). -/
def frameCall (f : StackFrame) (last : Option Symex) : Except Err FrameResult :=
  match f with
  | .Evaluate expr env =>
    match expr with
    | .atom t => do
      let v ← atom_value t env
      .ok { result_expr := some v }
    | .list (.atom name :: argExprs) =>
      if isMachineBuiltin name then machineBuiltinCall name argExprs env
      else .ok { new_frames := [.EvaluateForCall (.atom name :: argExprs) [] env] }
    | .list items => .ok { new_frames := [.EvaluateForCall items [] env] }
  | .EvaluateForCall expr values env =>
    if values.length < expr.length then
      match expr[values.length]? with
      | some next_expr =>
        .ok { new_frames := [.GotValueForCall expr values env, .Evaluate next_expr env] }
      | none => .error (.indexError "list index out of range")
    else
      match values with
      | [] => .error (.valueError "not enough values to unpack (expected at least 1, got 0)")
      | func_expr :: args => do
        match ← Function.from_symex func_expr with
        | .primitive p => do
          let r ← p.apply args
          .ok { result_expr := some r }
        | .closure c => do
          let func_env ← c.build_env args
          .ok { new_frames := [.Evaluate c.body func_env] }
  | .GotValueForCall expr values env =>
    match last with
    | none => .error (.valueError "GotValueForCall didn't get a result")
    | some new_value =>
      .ok { new_frames := [.EvaluateForCall expr (values ++ [new_value]) env] }
  | .CondFrame cases env =>
    match cases with
    | [] => .error (.valueError "none of the conditions were true")
    | first_case :: remaining_cases =>
      match first_case with
      | [condition, outcome] =>
        .ok { new_frames := [.GotValueForCond outcome remaining_cases env,
                             .Evaluate condition env] }
      | [_] => .error (.valueError "not enough values to unpack (expected 2, got 1)")
      | [] => .error (.valueError "not enough values to unpack (expected 2, got 0)")
      | _ => .error (.valueError "too many values to unpack (expected 2)")
  | .GotValueForCond outcome_if_true remaining_cases env =>
    match last with
    | none => .error (.valueError "GotValueForCond didn't get a result")
    | some condition_value =>
      if condition_value.toBool then
        .ok { new_frames := [.Evaluate outcome_if_true env] }
      else
        .ok { new_frames := [.CondFrame remaining_cases env] }
  | .WhereFrame body_expr binding_exprs env =>
    match binding_exprs with
    | [] => .ok { new_frames := [.Evaluate body_expr env] }
    | first_binding :: remaining =>
      match first_binding with
      | .atom _ => .error (.valueError "this is an atom, not a list")
      | .list [nameSy, value_expr] =>
        match nameSy with
        | .atom n =>
          .ok { new_frames := [.GotValueForWhere body_expr remaining env n,
                               .Evaluate value_expr env] }
        | .list _ => .error (.valueError "this is a list, not an atom")
      | .list [_] => .error (.valueError "not enough values to unpack (expected 2, got 1)")
      | .list [] => .error (.valueError "not enough values to unpack (expected 2, got 0)")
      | .list _ => .error (.valueError "too many values to unpack (expected 2)")
  | .GotValueForWhere body_expr binding_exprs env new_binding_name =>
    match last with
    | none => .error (.valueError "GotValueForWhere didn't get a result")
    | some new_value =>
      .ok { new_frames :=
        [.WhereFrame body_expr binding_exprs
          (env.extend_with [⟨new_binding_name, new_value⟩])] }

/-- A machine state: the work stack (top at the head) and the last result. -/
structure MState where
  frames : List StackFrame
  last : Option Symex

/-- The outcome of one iteration of `Machine.eval_in`'s loop. -/
inductive StepOut where
  | done (last : Option Symex)
  | fail (e : Err)
  | next (s : MState)

/-- One iteration of the loop: pop the top frame, call it with the last
result, push the returned frames and record the returned result. -/
def stepState : MState → StepOut
  | ⟨[], l⟩ => .done l
  | ⟨f :: rest, l⟩ =>
    match frameCall f l with
    | .error e => .fail e
    | .ok fr => .next ⟨fr.new_frames.reverse ++ rest, fr.result_expr⟩

/-- The driving loop with a fuel budget: iterate until the stack is empty;
an empty stack with no recorded result is an error. -/
def run : Nat → MState → Res
  | 0, _ => .error .fuel
  | n + 1, s =>
    match stepState s with
    | .done (some v) => .ok v
    | .done none => .error (.valueError "the last stack frame didn't return a result")
    | .fail e => .error e
    | .next s2 => run n s2

/-- `Machine.eval_in`: run the loop from a single `Evaluate` frame. -/
def machineEval (fuel : Nat) (expr : Symex) (env : Environment) : Res :=
  run fuel ⟨[.Evaluate expr env], none⟩

/-! ## Round-trip lemmas for the symex encodings -/

theorem binding_roundtrip (b : Binding) :
    Binding.from_symex b.to_symex = .ok b := by
  cases b; rfl

theorem bindingsFromSymex_roundtrip (bs : List Binding) :
    bindingsFromSymex (bs.map Binding.to_symex) = .ok bs := by
  induction bs with
  | nil => rfl
  | cons b bs ih =>
    simp only [List.map_cons, bindingsFromSymex, binding_roundtrip b, ih]
    rfl

theorem environment_roundtrip (e : Environment) :
    Environment.from_symex e.to_symex = .ok e := by
  cases e with
  | mk bs =>
    simp only [Environment.to_symex, Environment.from_symex,
      bindingsFromSymex_roundtrip]
    rfl

theorem paramsAtoms_roundtrip (ps : List String) :
    paramsAtoms (ps.map Symex.atom) = .ok ps := by
  induction ps with
  | nil => rfl
  | cons p ps ih => simp only [List.map_cons, paramsAtoms, ih]; rfl

theorem closure_roundtrip (c : Closure) :
    Closure.from_symex c.to_symex = .ok c := by
  cases c with
  | mk params name body env =>
    cases name <;>
      simp [Closure.to_symex, Closure.from_symex, paramsAtoms_roundtrip,
        environment_roundtrip, Bind.bind, Except.bind]

/-! ## The claims -/

/-- C4: an atom is falsy if and only if its text is exactly `:false`; every
other atom and every list (including the empty list) is truthy. -/
theorem c4_truthiness (s : Symex) : s.toBool = false ↔ s = .atom ":false" := by
  cases s with
  | atom t => simp [Symex.toBool]
  | list items => simp [Symex.toBool]

/-- C5: symex serialization round-trips: decoding the encoding of any
environment yields that environment, and likewise for any closure, whether
or not it carries a self-name. -/
theorem c5_serialization_roundtrip :
    (∀ e : Environment, Environment.from_symex e.to_symex = .ok e) ∧
    (∀ c : Closure, Closure.from_symex c.to_symex = .ok c) :=
  ⟨environment_roundtrip, closure_roundtrip⟩

/-- C8: the `Head` primitive of `primitives.py`, given one argument,
returns the first element of a non-empty list, fails with the empty-list
error on the empty list, and fails with the not-a-list error on an atom. -/
theorem c8_head_primitive (x : Symex) (xs : List Symex) (t : String) :
    Prim.Head [Symex.list (x :: xs)] = .ok x ∧
    Prim.Head [Symex.list []] =
      .error (.valueError "the Head function got an empty list") ∧
    Prim.Head [Symex.atom t] =
      .error (.valueError "the Head function got something that isn't a list") :=
  ⟨rfl, rfl, rfl⟩

/-- C7: applying a closure fails with the arity error unless the argument
count matches the parameter count; otherwise the call environment is the
captured environment extended with the pairwise parameter bindings,
prepended with the self binding when the closure is named, and
`Closure.apply` of `interpreter.py` evaluates the body in exactly the
environment `Closure.build_env` constructs. -/
theorem c7_closure_apply (c : Closure) (args : List Symex) (n : Nat) :
    (args.length ≠ c.params.length →
      c.build_env args = .error (.valueError "closure got wrong number of arguments")) ∧
    (args.length = c.params.length →
      c.build_env args = .ok (c.env.extend_with
        (match c.name with
         | some nm => Binding.mk nm c.to_symex ::
             (c.params.zip args).map (fun pa => Binding.mk pa.1 pa.2)
         | none => (c.params.zip args).map (fun pa => Binding.mk pa.1 pa.2)))) ∧
    (closureApplyCore (dEval n) c args =
      match c.build_env args with
      | .ok callEnv => dEval n c.body callEnv
      | .error e => .error e) := by
  refine ⟨fun h => ?_, fun h => ?_, ?_⟩
  · simp [Closure.build_env, h]
  · simp only [Closure.build_env, h]
    simp
  · by_cases h : args.length = c.params.length
    · simp only [Closure.build_env, closureApplyCore, h]
      simp
    · simp [Closure.build_env, closureApplyCore, h]

/-- C7 witness: a named one-parameter closure applied to one argument
builds the self binding followed by the parameter binding. -/
theorem c7_closure_apply_witness :
    Closure.build_env ⟨["x"], some "f", .atom "x", ⟨[]⟩⟩ [.atom ":a"] =
      .ok ⟨[⟨"f", Closure.to_symex ⟨["x"], some "f", .atom "x", ⟨[]⟩⟩⟩,
            ⟨"x", .atom ":a"⟩]⟩ := by
  have h := (c7_closure_apply ⟨["x"], some "f", .atom "x", ⟨[]⟩⟩ [.atom ":a"] 0).2.1
    (by decide)
  rw [h]; rfl

/-- C1 (code bug): the claimed equivalence fails at the input `(And)`: the
direct evaluator's builtin table has `And`, so `(And)` evaluates to `:true`,
while the machine's builtin table (`machine_builtins.py`) lacks `And` and
the machine treats the form as an ordinary call, failing to look up the
unbound name `And`. -/
theorem c1_equivalence_fails_on_and :
    dEval 3 (.list [.atom "And"]) ⟨[]⟩ = .ok (.atom ":true") ∧
    machineEval 5 (.list [.atom "And"]) ⟨[]⟩ =
      .error (.valueError "the name \"And\" is not in this environment") :=
  ⟨rfl, rfl⟩

/-- C3 (code bug): the two evaluators do not raise the same error kind for
an unbound variable atom: the direct evaluator (`SAtom.eval_in`) raises
NotImplementedError while the machine (`atom_value` via
`Environment.__getitem__`) raises ValueError. -/
theorem c3_error_kinds_differ_on_unbound :
    dEval 2 (.atom "x") ⟨[]⟩ =
      .error (.notImplementedError "don't know how to evaluate this atom") ∧
    machineEval 3 (.atom "x") ⟨[]⟩ =
      .error (.valueError "the name \"x\" is not in this environment") :=
  ⟨rfl, rfl⟩

/-- C10: for a list expression whose head is a builtin-form name, both
evaluators dispatch to the special form before any evaluation or
environment lookup of the head, so an environment binding for that name can
never shadow the form — witnessed generally (the dispatch is independent of
the environment's contents) and concretely for `Quote` shadowed at the
front of the environment. -/
theorem c10_special_form_dispatch :
    (∀ (n : Nat) (name : String) (args : List Symex) (env : Environment),
      isDirectBuiltin name = true →
      dEval (n + 1) (.list (.atom name :: args)) env =
        builtinFormsCall (dEval n) name args env) ∧
    (∀ (name : String) (args : List Symex) (env : Environment) (last : Option Symex),
      isMachineBuiltin name = true →
      frameCall (.Evaluate (.list (.atom name :: args)) env) last =
        machineBuiltinCall name args env) ∧
    (∀ (n : Nat) (env : Environment) (v x : Symex),
      dEval (n + 1) (.list [.atom "Quote", x]) ⟨⟨"Quote", v⟩ :: env.bindings⟩ =
        .ok x ∧
      machineEval 2 (.list [.atom "Quote", x]) ⟨⟨"Quote", v⟩ :: env.bindings⟩ =
        .ok x) := by
  refine ⟨fun n name args env h => ?_, fun name args env last h => ?_,
    fun n env v x => ⟨rfl, rfl⟩⟩
  · simp [dEval, evalCore, h]
  · simp [frameCall, h]

/-- C10 witness: the dispatch equations at the concrete form `Cond`. -/
theorem c10_special_form_dispatch_witness :
    dEval 1 (.list [.atom "Cond"]) ⟨[]⟩ =
      builtinFormsCall (dEval 0) "Cond" [] ⟨[]⟩ ∧
    frameCall (.Evaluate (.list [.atom "Cond"]) ⟨[]⟩) none =
      machineBuiltinCall "Cond" [] ⟨[]⟩ :=
  ⟨(c10_special_form_dispatch.1 0 "Cond" [] ⟨[]⟩ rfl),
   (c10_special_form_dispatch.2.1 "Cond" [] ⟨[]⟩ none rfl)⟩

/-! ## Reachability between machine states

`StepsTo s t` holds when the driving loop transforms state `s` into state
`t` in finitely many iterations. Frames below the working portion of the
stack are never inspected, so a completed run can be replayed on top of any
stack — the composition principle behind the `Where` and tail-call
theorems. -/

inductive StepsTo : MState → MState → Prop where
  | refl (s : MState) : StepsTo s s
  | step {s s2 t : MState} : stepState s = .next s2 → StepsTo s2 t → StepsTo s t

theorem StepsTo.trans {a b c : MState} (h1 : StepsTo a b) (h2 : StepsTo b c) :
    StepsTo a c := by
  induction h1 with
  | refl => exact h2
  | step hs _ ih => exact .step hs (ih h2)

/-- A step from a non-empty stack is insensitive to frames below the top:
appending `k` to the stack appends `k` to the successor's stack. -/
theorem stepState_append {fs : List StackFrame} {l : Option Symex} {s2 : MState}
    (h : stepState ⟨fs, l⟩ = .next s2) (k : List StackFrame) :
    stepState ⟨fs ++ k, l⟩ = .next ⟨s2.frames ++ k, s2.last⟩ := by
  cases fs with
  | nil => simp [stepState] at h
  | cons f rest =>
    simp only [stepState, List.cons_append] at h ⊢
    cases hc : frameCall f l with
    | error e => rw [hc] at h; simp at h
    | ok fr =>
      rw [hc] at h
      simp only [StepOut.next.injEq] at h
      subst h
      simp [List.append_assoc]

theorem StepsTo.append {s t : MState} (h : StepsTo s t) (k : List StackFrame) :
    StepsTo ⟨s.frames ++ k, s.last⟩ ⟨t.frames ++ k, t.last⟩ := by
  induction h with
  | refl s => exact .refl _
  | step hs _ ih =>
    exact .step (stepState_append hs k) ih

/-- A successful bounded run yields a reachability derivation to the final
state. -/
theorem run_ok_steps :
    ∀ (n : Nat) (s : MState) (v : Symex), run n s = .ok v →
      StepsTo s ⟨[], some v⟩ := by
  intro n
  induction n with
  | zero => intro s v h; simp [run] at h
  | succ n ih =>
    intro s v h
    simp only [run] at h
    cases hs : stepState s with
    | done l =>
      rw [hs] at h
      cases l with
      | none => simp at h
      | some w =>
        simp only [Except.ok.injEq] at h
        subst h
        obtain ⟨fs, last⟩ := s
        cases fs with
        | nil =>
          simp only [stepState, StepOut.done.injEq] at hs
          subst hs; exact .refl _
        | cons f rest =>
          simp only [stepState] at hs
          cases hc : frameCall f last <;> rw [hc] at hs <;> simp at hs
    | fail e => rw [hs] at h; simp at h
    | next s2 => rw [hs] at h; exact .step hs (ih s2 v h)

/-- Replaying a reachability derivation shifts the fuel of any subsequent
run. -/
theorem steps_run {s t : MState} (h : StepsTo s t) :
    ∃ m, ∀ n, run (m + n) s = run n t := by
  induction h with
  | refl s => exact ⟨0, fun n => by simp⟩
  | step hs _ ih =>
    obtain ⟨m, hm⟩ := ih
    refine ⟨m + 1, fun n => ?_⟩
    have : m + 1 + n = (m + n) + 1 := by omega
    rw [this, run, hs]
    exact hm n

/-- A derivation reaching the final state with value `v` makes the machine
return `v` with some fuel. -/
theorem steps_run_ok {s : MState} {v : Symex} (h : StepsTo s ⟨[], some v⟩) :
    ∃ m, run m s = .ok v := by
  obtain ⟨m, hm⟩ := steps_run h
  exact ⟨m + 1, by rw [hm 1]; rfl⟩

/-- A successful `machineEval` yields a reachability derivation from the
initial state. -/
theorem machineEval_steps {m : Nat} {e : Symex} {env : Environment} {v : Symex}
    (h : machineEval m e env = .ok v) :
    StepsTo ⟨[.Evaluate e env], none⟩ ⟨[], some v⟩ :=
  run_ok_steps m _ v h

/-- The `Evaluate` frame ignores the incoming result, so a completed
evaluation of `e` can be replayed on top of any stack `k` and with any
incoming result, delivering its value to the frame below. -/
theorem steps_eval_ctx {e : Symex} {env : Environment} {v : Symex}
    (h : StepsTo ⟨[.Evaluate e env], none⟩ ⟨[], some v⟩)
    (k : List StackFrame) (l : Option Symex) :
    StepsTo ⟨.Evaluate e env :: k, l⟩ ⟨k, some v⟩ := by
  cases h with
  | step hs h2 =>
    rename_i s2
    have hs2 : stepState ⟨.Evaluate e env :: k, l⟩ = .next ⟨s2.frames ++ k, s2.last⟩ := by
      simp only [stepState] at hs ⊢
      have hfl : frameCall (.Evaluate e env) l = frameCall (.Evaluate e env) none := rfl
      rw [hfl]
      cases hc : frameCall (.Evaluate e env) none with
      | error e2 => rw [hc] at hs; simp at hs
      | ok fr =>
        rw [hc] at hs
        simp only [StepOut.next.injEq] at hs
        subst hs
        simp
    have h3 := StepsTo.append h2 k
    simp only [List.nil_append] at h3
    exact .step hs2 h3

/-- C6: `Where` with two bindings of the same name evaluates the first
value expression in the incoming environment, the second in the environment
extended with the first binding (so later bindings see earlier ones), and
the body in the fully extended environment; there the later-declared
binding is the one a lookup of the shared name finds. This holds for the
direct evaluator (the evaluation of the body is literally the evaluation in
the fully extended environment) and for the machine. -/
theorem c6_where_shadowing
    (name : String) (e1 e2 body : Symex) (env : Environment) (v1 v2 v3 : Symex)
    (n m : Nat)
    (h1 : dEval n e1 env = .ok v1)
    (h2 : dEval n e2 (env.extend_with [⟨name, v1⟩]) = .ok v2)
    (hm1 : machineEval m e1 env = .ok v1)
    (hm2 : machineEval m e2 (env.extend_with [⟨name, v1⟩]) = .ok v2)
    (hm3 : machineEval m body
      ((env.extend_with [⟨name, v1⟩]).extend_with [⟨name, v2⟩]) = .ok v3) :
    dEval (n + 1)
        (.list [.atom "Where", body, .list [.atom name, e1], .list [.atom name, e2]])
        env =
      dEval n body ((env.extend_with [⟨name, v1⟩]).extend_with [⟨name, v2⟩]) ∧
    ((env.extend_with [⟨name, v1⟩]).extend_with [⟨name, v2⟩]).getitem name = .ok v2 ∧
    ((env.extend_with [⟨name, v1⟩]).extend_with [⟨name, v2⟩]).getitemS name = .ok v2 ∧
    ∃ k, machineEval k
        (.list [.atom "Where", body, .list [.atom name, e1], .list [.atom name, e2]])
        env = .ok v3 := by
  refine ⟨?_, ?_, ?_, ?_⟩
  · simp [dEval, evalCore, isDirectBuiltin, builtinFormsCall, whereLoop, h1, h2,
      Bind.bind, Except.bind]
  · simp [Environment.getitem, Environment.extend_with, List.find?]
  · simp [Environment.getitemS, Environment.extend_with, List.find?]
  · have s1 := steps_eval_ctx (machineEval_steps hm1)
      [.GotValueForWhere body [.list [.atom name, e2]] env name] none
    have s2 := steps_eval_ctx (machineEval_steps hm2)
      [.GotValueForWhere body [] (env.extend_with [⟨name, v1⟩]) name] none
    have s3 := machineEval_steps hm3
    have t1 : stepState ⟨[.Evaluate
        (.list [.atom "Where", body, .list [.atom name, e1], .list [.atom name, e2]])
        env], none⟩ =
      .next ⟨[.WhereFrame body [.list [.atom name, e1], .list [.atom name, e2]] env],
           none⟩ := rfl
    have t2 : stepState ⟨[.WhereFrame body
          [.list [.atom name, e1], .list [.atom name, e2]] env], none⟩ =
      .next ⟨[.Evaluate e1 env,
            .GotValueForWhere body [.list [.atom name, e2]] env name], none⟩ := rfl
    have t3 : stepState ⟨[.GotValueForWhere body [.list [.atom name, e2]] env name],
          some v1⟩ =
      .next ⟨[.WhereFrame body [.list [.atom name, e2]] (env.extend_with [⟨name, v1⟩])],
           none⟩ := rfl
    have t4 : stepState ⟨[.WhereFrame body [.list [.atom name, e2]]
          (env.extend_with [⟨name, v1⟩])], none⟩ =
      .next ⟨[.Evaluate e2 (env.extend_with [⟨name, v1⟩]),
            .GotValueForWhere body [] (env.extend_with [⟨name, v1⟩]) name], none⟩ := rfl
    have t5 : stepState ⟨[.GotValueForWhere body [] (env.extend_with [⟨name, v1⟩]) name],
          some v2⟩ =
      .next ⟨[.WhereFrame body []
            ((env.extend_with [⟨name, v1⟩]).extend_with [⟨name, v2⟩])], none⟩ := rfl
    have t6 : stepState ⟨[.WhereFrame body []
          ((env.extend_with [⟨name, v1⟩]).extend_with [⟨name, v2⟩])], none⟩ =
      .next ⟨[.Evaluate body
            ((env.extend_with [⟨name, v1⟩]).extend_with [⟨name, v2⟩])], none⟩ := rfl
    have chain : StepsTo ⟨[.Evaluate
        (.list [.atom "Where", body, .list [.atom name, e1], .list [.atom name, e2]])
        env], none⟩ ⟨[], some v3⟩ :=
      .step t1 (.step t2 (s1.trans (.step t3 (.step t4
        (s2.trans (.step t5 (.step t6 s3)))))))
    exact steps_run_ok chain

/-- C6 witness: `(Where color (color :red) (color :blue))` evaluates to
`:blue` under both evaluators. -/
theorem c6_where_shadowing_witness :
    dEval 2 (.list [.atom "Where", .atom "color",
        .list [.atom "color", .atom ":red"], .list [.atom "color", .atom ":blue"]])
        ⟨[]⟩ =
      dEval 1 (.atom "color")
        ((Environment.mk []).extend_with [⟨"color", .atom ":red"⟩] |>.extend_with
          [⟨"color", .atom ":blue"⟩]) ∧
    ((Environment.mk []).extend_with [⟨"color", .atom ":red"⟩] |>.extend_with
        [⟨"color", .atom ":blue"⟩]).getitem "color" = .ok (.atom ":blue") ∧
    ((Environment.mk []).extend_with [⟨"color", .atom ":red"⟩] |>.extend_with
        [⟨"color", .atom ":blue"⟩]).getitemS "color" = .ok (.atom ":blue") ∧
    ∃ k, machineEval k (.list [.atom "Where", .atom "color",
        .list [.atom "color", .atom ":red"], .list [.atom "color", .atom ":blue"]])
        ⟨[]⟩ = .ok (.atom ":blue") :=
  c6_where_shadowing "color" (.atom ":red") (.atom ":blue") (.atom "color") ⟨[]⟩
    (.atom ":red") (.atom ":blue") (.atom ":blue") 1 2
    rfl rfl rfl rfl rfl

/-! ## Tail-call boundedness (C2)

A bounded-depth run checker over the machine's step function, and a
concrete self-recursive tail-calling program: a named closure `Count` that
`Cond`-tests its list argument and tail-calls itself on the `Tail` until the
list is empty. -/

/-- `boundedRun D n s = true` iff within `n` iterations the machine,
started at `s`, reaches an empty stack with result `:done`, and every
traversed state (including `s`) has work-stack depth at most `D`. -/
def boundedRun (D : Nat) : Nat → MState → Bool
  | 0, _ => false
  | n + 1, s =>
    decide (s.frames.length ≤ D) &&
    match stepState s with
    | .done (some v) => v == Symex.atom ":done"
    | .done none => false
    | .fail _ => false
    | .next s2 => boundedRun D n s2

/-- Step exactly `k` times, checking the depth bound at each traversed
state; `none` if the run finishes or fails early or exceeds the bound. -/
def boundedSeg (D : Nat) : Nat → MState → Option MState
  | 0, s => some s
  | k + 1, s =>
    if s.frames.length ≤ D then
      match stepState s with
      | .next s2 => boundedSeg D k s2
      | _ => none
    else none

theorem boundedSeg_boundedRun {D : Nat} :
    ∀ (k : Nat) (s s2 : MState), boundedSeg D k s = some s2 →
      ∀ n, boundedRun D n s2 = true → boundedRun D (k + n) s = true := by
  intro k
  induction k with
  | zero =>
    intro s s2 h n h2
    simp only [boundedSeg, Option.some.injEq] at h
    subst h
    simpa using h2
  | succ k ih =>
    intro s s2 h n h2
    simp only [boundedSeg] at h
    by_cases hd : s.frames.length ≤ D
    · rw [if_pos hd] at h
      cases hs : stepState s with
      | next s3 =>
        rw [hs] at h
        have : k + 1 + n = (k + n) + 1 := by omega
        rw [this]
        simp only [boundedRun, hs]
        simp [hd, ih s3 s2 h n h2]
      | done l => rw [hs] at h; simp at h
      | fail e => rw [hs] at h; simp at h
    · rw [if_neg hd] at h; simp at h

theorem boundedRun_run {D : Nat} :
    ∀ (n : Nat) (s : MState), boundedRun D n s = true →
      run n s = .ok (.atom ":done") := by
  intro n
  induction n with
  | zero => intro s h; simp [boundedRun] at h
  | succ n ih =>
    intro s h
    simp only [boundedRun, Bool.and_eq_true] at h
    obtain ⟨-, h⟩ := h
    simp only [run]
    cases hs : stepState s with
    | done l =>
      rw [hs] at h
      cases l with
      | none => simp at h
      | some v => simp only [beq_iff_eq] at h; rw [h]
    | fail e => rw [hs] at h; simp at h
    | next s2 => rw [hs] at h; exact ih s2 h

/-- The countdown body: `(Cond ((= list (Quote ())) :done)
(:true (Count (Tail list))))` — the recursive call is in tail position. -/
def countBody : Symex :=
  .list [.atom "Cond",
    .list [.list [.atom "=", .atom "list", .list [.atom "Quote", .list []]],
           .atom ":done"],
    .list [.atom ":true",
           .list [.atom "Count", .list [.atom "Tail", .atom "list"]]]]

/-- `(Function Count (list) countBody)`. -/
def countFunc : Symex :=
  .list [.atom "Function", .atom "Count", .list [.atom "list"], countBody]

/-- The countdown program applied to a quoted list. -/
def countApp (lst : List Symex) : Symex :=
  .list [countFunc, .list [.atom "Quote", .list lst]]

/-- The symex encoding of the `Count` closure as the machine constructs it. -/
def countClosSy : Symex :=
  Closure.to_symex ⟨["list"], some "Count", countBody, primitive_env⟩

/-- The call environment of `Count` applied to `lst`: the self binding, the
parameter binding, then the bootstrap chain. -/
def countEnv (lst : List Symex) : Environment :=
  ⟨⟨"Count", countClosSy⟩ :: ⟨"list", .list lst⟩ :: primitive_env.bindings⟩

theorem countSegApp (lst : List Symex) :
    boundedSeg 3 8 ⟨[.Evaluate (countApp lst) primitive_env], none⟩ =
      some ⟨[.Evaluate countBody (countEnv lst)], none⟩ := rfl

theorem countSegLoop (x : Symex) (rest : List Symex) :
    boundedSeg 3 32 ⟨[.Evaluate countBody (countEnv (x :: rest))], none⟩ =
      some ⟨[.Evaluate countBody (countEnv rest)], none⟩ := rfl

theorem countBase :
    boundedRun 3 16 ⟨[.Evaluate countBody (countEnv [])], none⟩ = true := rfl

theorem countLoop (lst : List Symex) :
    boundedRun 3 (32 * lst.length + 16)
      ⟨[.Evaluate countBody (countEnv lst)], none⟩ = true := by
  induction lst with
  | nil => exact countBase
  | cons x rest ih =>
    have harith : 32 * (x :: rest).length + 16 = 32 + (32 * rest.length + 16) := by
      simp [List.length_cons]; ring
    rw [harith]
    exact boundedSeg_boundedRun 32 _ _ (countSegLoop x rest) _ ih

/-- C2: tail calls do not grow the machine's work stack. (1) Once all call
elements are evaluated, applying a closure replaces the `EvaluateForCall`
frame with the single frame `Evaluate(body, call_env)` — the stack depth is
unchanged and no continuation frame is pushed. (2) For the self-recursive
tail-calling `Count` program applied to a list of any length, the machine
completes with result `:done` while the work-stack depth never exceeds the
constant 3, independent of the number of recursive applications. -/
theorem c2_tail_call_bounded :
    (∀ (expr values args : List Symex) (env env2 : Environment) (funcSy : Symex)
       (c : Closure) (k : List StackFrame) (l : Option Symex),
      values = funcSy :: args →
      values.length = expr.length →
      Function.from_symex funcSy = .ok (.closure c) →
      c.build_env args = .ok env2 →
      stepState ⟨.EvaluateForCall expr values env :: k, l⟩ =
          .next ⟨.Evaluate c.body env2 :: k, none⟩ ∧
        (StackFrame.Evaluate c.body env2 :: k).length =
          (StackFrame.EvaluateForCall expr values env :: k).length) ∧
    (∀ lst : List Symex,
      boundedRun 3 (8 + (32 * lst.length + 16))
        ⟨[.Evaluate (countApp lst) primitive_env], none⟩ = true ∧
      run (8 + (32 * lst.length + 16))
        ⟨[.Evaluate (countApp lst) primitive_env], none⟩ = .ok (.atom ":done")) := by
  constructor
  · intro expr values args env env2 funcSy c k l hv hlen hfunc hbuild
    refine ⟨?_, rfl⟩
    subst hv
    have hnotlt : ¬ (funcSy :: args).length < expr.length := by omega
    simp only [stepState, frameCall, if_neg hnotlt, hfunc, hbuild,
      Bind.bind, Except.bind]
    rfl
  · intro lst
    have hb := boundedSeg_boundedRun 8 _ _ (countSegApp lst) _ (countLoop lst)
    exact ⟨hb, boundedRun_run _ _ hb⟩

/-- C2 witness: the completed-call step at a concrete identity closure, and
the bounded run at a two-element list. -/
theorem c2_tail_call_bounded_witness :
    stepState ⟨[.EvaluateForCall [.atom "f", .atom ":a"]
        [Closure.to_symex ⟨["x"], none, .atom "x", ⟨[]⟩⟩, .atom ":a"] ⟨[]⟩], none⟩ =
      .next ⟨[.Evaluate (.atom "x") ⟨[⟨"x", .atom ":a"⟩]⟩], none⟩ ∧
    boundedRun 3 88
      ⟨[.Evaluate (countApp [.atom ":x", .atom ":x"]) primitive_env], none⟩ = true := by
  constructor
  · exact (c2_tail_call_bounded.1 [.atom "f", .atom ":a"]
      [Closure.to_symex ⟨["x"], none, .atom "x", ⟨[]⟩⟩, .atom ":a"] [.atom ":a"]
      ⟨[]⟩ ⟨[⟨"x", .atom ":a"⟩]⟩ (Closure.to_symex ⟨["x"], none, .atom "x", ⟨[]⟩⟩)
      ⟨["x"], none, .atom "x", ⟨[]⟩⟩ [] none rfl rfl rfl rfl).1
  · exact (c2_tail_call_bounded.2 [.atom ":x", .atom ":x"]).1

/-! ## The parser (`symex/parsing.py`)

`SymexParser` holds a string and a cursor; the embedding carries the
remaining suffix as a `List Char`. The mutually recursive parsing methods
are threaded through a fuel budget (the Python recursion is unbounded but
terminating; any sufficient fuel reproduces it). -/

/-- `SymexParser.is_atom_char`: alphanumeric or one of the accepted symbol
characters (membership in the character sequence of `"*+-./:<=>?_"`;
alphanumeric is `Char.isAlphanum`, the ASCII fragment of Python's
`str.isalnum`). -/
def is_atom_char (c : Char) : Bool :=
  c.isAlphanum || "*+-./:<=>?_".data.contains c

/-- The inner loop of `consume_whitespace` on a `;` comment: skip up to
(not including) the next newline. -/
def dropToNewline : List Char → List Char
  | [] => []
  | c :: cs => if c = '\n' then c :: cs else dropToNewline cs

theorem dropToNewline_length_le : ∀ l : List Char, (dropToNewline l).length ≤ l.length := by
  intro l
  induction l with
  | nil => simp [dropToNewline]
  | cons c cs ih =>
    simp only [dropToNewline]
    split
    · simp
    · simpa using Nat.le_succ_of_le ih

/-- `SymexParser.consume_whitespace`: skip whitespace characters
(`Char.isWhitespace`, the ASCII fragment of Python's `str.isspace`) and `;`
line comments. -/
def consumeWhitespace : List Char → List Char
  | [] => []
  | c :: cs =>
    if c = ';' then consumeWhitespace (dropToNewline cs)
    else if c.isWhitespace then consumeWhitespace cs
    else c :: cs
termination_by l => l.length
decreasing_by
  · simpa using Nat.lt_succ_of_le (dropToNewline_length_le cs)
  · simp

/-- `SymexParser.parse_atom_with_tail`: skip whitespace, then take the
maximal run of atom characters; empty runs are refused. -/
def parseAtom (input : List Char) : Except Err (Symex × List Char) :=
  let input2 := consumeWhitespace input
  let taken := input2.takeWhile is_atom_char
  if taken = [] then .error (.valueError "failed to find an atom character")
  else .ok (.atom (String.mk taken), input2.dropWhile is_atom_char)

mutual

/-- `SymexParser.parse_with_tail`: skip whitespace; refuse the end of
input; a `(` starts a list, an atom character starts an atom, anything
else is refused. -/
def parseWithTail : Nat → List Char → Except Err (Symex × List Char)
  | 0, _ => .error .fuel
  | n + 1, input =>
    match consumeWhitespace input with
    | [] => .error (.valueError "unexpected end of input")
    | c :: cs =>
      if c = '(' then parseListWithTail n (c :: cs)
      else if is_atom_char c then parseAtom (c :: cs)
      else .error (.valueError "failed to find a recognizable character")

/-- `SymexParser.parse_list_with_tail`: skip whitespace, consume the
opening parenthesis, then parse items until the closing parenthesis. -/
def parseListWithTail : Nat → List Char → Except Err (Symex × List Char)
  | 0, _ => .error .fuel
  | n + 1, input =>
    match consumeWhitespace input with
    | c :: cs =>
      if c = '(' then parseListItems n [] cs
      else .error (.valueError "failed to find an opening parenthesis")
    | [] => .error (.valueError "failed to find an opening parenthesis")

/-- The item loop of `parse_list_with_tail`: skip whitespace; a `)` closes
the list, otherwise parse one expression and append it. Reaching the end of
input inside the loop surfaces as `parse_with_tail`'s end-of-input error,
exactly as in the source, whose final not-a-closing-parenthesis branch is
unreachable (the loop only exits on `)`). -/
def parseListItems : Nat → List Symex → List Char → Except Err (Symex × List Char)
  | 0, _, _ => .error .fuel
  | n + 1, acc, input =>
    match consumeWhitespace input with
    | ')' :: cs => .ok (.list acc, cs)
    | other => do
      let (item, rest) ← parseWithTail n other
      parseListItems n (acc ++ [item]) rest

end

/-- `SymexParser.parse`: parse one expression, skip trailing whitespace and
require the end of the input. -/
def SymexParser.parse (fuel : Nat) (text : String) : Except Err Symex := do
  let (result, rest) ← parseWithTail fuel text.data
  match consumeWhitespace rest with
  | [] => .ok result
  | _ => .error (.valueError "extra text was present after the end of the expression")

/-- Well-formed atom text: non-empty and made of atom characters only. -/
def wfAtomText (t : String) : Bool :=
  !t.data.isEmpty && t.data.all is_atom_char

mutual

/-- A symex all of whose atoms have well-formed text. -/
def wfSymex : Symex → Bool
  | .atom t => wfAtomText t
  | .list items => wfListAux items

def wfListAux : List Symex → Bool
  | [] => true
  | x :: xs => wfSymex x && wfListAux xs

end

mutual

/-- A sufficient parsing fuel for a symex. -/
def pfuel : Symex → Nat
  | .atom _ => 1
  | .list items => 2 + pfuelList items

def pfuelList : List Symex → Nat
  | [] => 1
  | x :: xs => pfuel x + pfuelList xs + 1

end

/-! ### Round-trip lemmas for the parser -/

theorem atomChar_not_special {c : Char} (h : is_atom_char c = true) :
    c.isWhitespace = false ∧ c ≠ ';' ∧ c ≠ '(' ∧ c ≠ ')' := by
  refine ⟨?_, ?_, ?_, ?_⟩
  · by_contra hw
    simp only [Bool.not_eq_false] at hw
    simp only [Char.isWhitespace, Bool.or_eq_true, decide_eq_true_eq] at hw
    rcases hw with ((h1 | h1) | h1) | h1 <;> subst h1 <;> revert h <;> decide
  · rintro rfl; revert h; decide
  · rintro rfl; revert h; decide
  · rintro rfl; revert h; decide

theorem consumeWhitespace_atomChar {c : Char} (h : is_atom_char c = true)
    (l : List Char) : consumeWhitespace (c :: l) = c :: l := by
  obtain ⟨hw, hsemi, -, -⟩ := atomChar_not_special h
  unfold consumeWhitespace
  simp [hsemi, hw]

theorem consumeWhitespace_open (l : List Char) :
    consumeWhitespace ('(' :: l) = '(' :: l := by
  unfold consumeWhitespace
  rw [if_neg (by decide), if_neg (by decide)]

theorem consumeWhitespace_close (l : List Char) :
    consumeWhitespace (')' :: l) = ')' :: l := by
  unfold consumeWhitespace
  rw [if_neg (by decide), if_neg (by decide)]

theorem takeWhile_append_of_all {α : Type} (p : α → Bool) :
    ∀ (l1 l2 : List α), l1.all p = true → (∀ c, l2.head? = some c → p c = false) →
      (l1 ++ l2).takeWhile p = l1 ∧ (l1 ++ l2).dropWhile p = l2 := by
  intro l1
  induction l1 with
  | nil =>
    intro l2 _ hh
    cases l2 with
    | nil => simp
    | cons c cs =>
      have := hh c rfl
      simp [List.takeWhile, List.dropWhile, this]
  | cons a l1 ih =>
    intro l2 hall hh
    simp only [List.all_cons, Bool.and_eq_true] at hall
    obtain ⟨ha, hall⟩ := hall
    obtain ⟨h1, h2⟩ := ih l2 hall hh
    simp [List.takeWhile, List.dropWhile, ha, h1, h2]

theorem parseAtom_render {t : String} (h : wfAtomText t = true)
    (rest : List Char) (hr : ∀ c, rest.head? = some c → is_atom_char c = false) :
    parseAtom (t.data ++ rest) = .ok (.atom t, rest) := by
  obtain ⟨l⟩ := t
  cases l with
  | nil => simp [wfAtomText] at h
  | cons c cs =>
    simp only [wfAtomText, List.isEmpty_cons, Bool.not_false, Bool.and_eq_true,
      List.all_cons, true_and] at h
    obtain ⟨hc, hcs⟩ := h
    have hws := consumeWhitespace_atomChar hc (cs ++ rest)
    have hsplit := takeWhile_append_of_all is_atom_char (c :: cs) rest
      (by simp [List.all_cons, hc, hcs]) hr
    simp only [List.cons_append] at hsplit
    have hdata : String.data ⟨c :: cs⟩ = c :: cs := rfl
    rw [hdata]
    simp only [parseAtom, List.cons_append, hws, hsplit.1, hsplit.2]
    simp

theorem consumeWhitespace_space (l : List Char) :
    consumeWhitespace (' ' :: l) = consumeWhitespace l := by
  conv_lhs => unfold consumeWhitespace
  rw [if_neg (by decide), if_pos (by decide)]

theorem parseListItems_space (k : Nat) (a : List Symex) (I : List Char) :
    parseListItems (k + 1) a (' ' :: I) = parseListItems (k + 1) a I := by
  simp only [parseListItems, consumeWhitespace_space]

/-- The rendering of a well-formed symex starts with an atom character or
an opening parenthesis. -/
theorem renderL_head (x : Symex) (h : wfSymex x = true) :
    ∃ c0 l0, Symex.renderL x = c0 :: l0 ∧ (is_atom_char c0 = true ∨ c0 = '(') := by
  cases x with
  | atom t =>
    obtain ⟨l⟩ := t
    cases l with
    | nil => simp [wfSymex, wfAtomText] at h
    | cons c cs =>
      refine ⟨c, cs, rfl, .inl ?_⟩
      simp only [wfSymex, wfAtomText, List.isEmpty_cons, Bool.not_false,
        Bool.and_eq_true, List.all_cons, true_and] at h
      exact h.1
  | list items => exact ⟨'(', _, rfl, .inr rfl⟩

theorem consumeWhitespace_renderL (x : Symex) (h : wfSymex x = true)
    (tail : List Char) :
    consumeWhitespace (Symex.renderL x ++ tail) = Symex.renderL x ++ tail := by
  obtain ⟨c0, l0, hrx, hc0⟩ := renderL_head x h
  rw [hrx, List.cons_append]
  rcases hc0 with hA | hP
  · exact consumeWhitespace_atomChar hA _
  · subst hP; exact consumeWhitespace_open _

theorem wfListAux_mem {items : List Symex} (h : wfListAux items = true) :
    ∀ x ∈ items, wfSymex x = true := by
  induction items with
  | nil => intro x hx; simp at hx
  | cons y ys ih =>
    intro x hx
    simp only [wfListAux, Bool.and_eq_true] at h
    rcases List.mem_cons.mp hx with rfl | hx2
    · exact h.1
    · exact ih h.2 x hx2

theorem pfuelList_pos (xs : List Symex) : 1 ≤ pfuelList xs := by
  cases xs <;> simp [pfuelList, pfuel]

/-- The item loop of the parser consumes the rendering of each item in
turn, then the closing parenthesis, returning the accumulated list. -/
theorem parseListItems_render :
    ∀ (items : List Symex),
      (∀ x ∈ items, ∀ (n : Nat) (rest : List Char), pfuel x ≤ n →
        (∀ c, rest.head? = some c → is_atom_char c = false) →
        parseWithTail n (Symex.renderL x ++ rest) = .ok (x, rest)) →
      wfListAux items = true →
      ∀ (n : Nat) (acc : List Symex) (rest : List Char), pfuelList items ≤ n →
        parseListItems n acc (Symex.renderL.joinItems items ++ ')' :: rest) =
          .ok (.list (acc ++ items), rest) := by
  intro items
  induction items with
  | nil =>
    intro _ _ n acc rest hn
    obtain ⟨m, rfl⟩ : ∃ m, n = m + 1 :=
      ⟨n - 1, by simp [pfuelList] at hn; omega⟩
    simp only [Symex.renderL.joinItems, List.nil_append, parseListItems,
      consumeWhitespace_close, List.append_nil]
  | cons x xs ih =>
    intro hcb hwf n acc rest hn
    have hwx : wfSymex x = true ∧ wfListAux xs = true := by
      simpa [wfListAux] using hwf
    have hnx : pfuel x + pfuelList xs + 1 ≤ n := by
      simpa [pfuelList] using hn
    obtain ⟨m, rfl⟩ : ∃ m, n = m + 1 := ⟨n - 1, by omega⟩
    have hpx : pfuel x ≤ m := by omega
    have hpxs : pfuelList xs ≤ m := by omega
    obtain ⟨c0, l0, hrx, hc0⟩ := renderL_head x hwx.1
    have hc0ne : c0 ≠ ')' := by
      rcases hc0 with hA | hP
      · exact (atomChar_not_special hA).2.2.2
      · subst hP; decide
    cases xs with
    | nil =>
      have hj : Symex.renderL.joinItems [x] = Symex.renderL x := rfl
      rw [hj]
      have hstep := hcb x (by simp) m (')' :: rest) hpx
        (by intro c hch; simp only [List.head?_cons, Option.some.injEq] at hch;
            subst hch; decide)
      simp only [parseListItems, consumeWhitespace_renderL x hwx.1 (')' :: rest)]
      split
      · rename_i cs heq
        rw [hrx, List.cons_append] at heq
        injection heq with h1 h2
        exact absurd h1 hc0ne
      · rw [hstep]
        simp only [Bind.bind, Except.bind]
        obtain ⟨k, rfl⟩ : ∃ k, m = k + 1 :=
          ⟨m - 1, by simp [pfuelList] at hpxs; omega⟩
        simp [parseListItems, consumeWhitespace_close]
    | cons y ys =>
      have hj : Symex.renderL.joinItems (x :: y :: ys) =
          Symex.renderL x ++ ' ' :: Symex.renderL.joinItems (y :: ys) := rfl
      rw [hj, List.append_assoc, List.cons_append]
      have hstep := hcb x (by simp) m
        (' ' :: (Symex.renderL.joinItems (y :: ys) ++ ')' :: rest)) hpx
        (by intro c hch; simp only [List.head?_cons, Option.some.injEq] at hch;
            subst hch; decide)
      simp only [parseListItems,
        consumeWhitespace_renderL x hwx.1
          (' ' :: (Symex.renderL.joinItems (y :: ys) ++ ')' :: rest))]
      split
      · rename_i cs heq
        rw [hrx, List.cons_append] at heq
        injection heq with h1 h2
        exact absurd h1 hc0ne
      · rw [hstep]
        simp only [Bind.bind, Except.bind]
        obtain ⟨k, rfl⟩ : ∃ k, m = k + 1 :=
          ⟨m - 1, by have := pfuelList_pos (y :: ys); omega⟩
        rw [parseListItems_space]
        rw [ih (fun z hz => hcb z (by simp [hz])) hwx.2 (k + 1) (acc ++ [x]) rest
          (by omega)]
        simp

/-- Parsing the rendering of a well-formed symex, followed by any suffix
that cannot extend an atom, returns the symex and the suffix. -/
theorem parseWithTail_render :
    ∀ (N : Nat) (s : Symex), sizeOf s ≤ N → wfSymex s = true →
      ∀ (n : Nat) (rest : List Char), pfuel s ≤ n →
        (∀ c, rest.head? = some c → is_atom_char c = false) →
        parseWithTail n (Symex.renderL s ++ rest) = .ok (s, rest) := by
  intro N
  induction N with
  | zero =>
    intro s h
    exfalso
    cases s <;> simp at h
  | succ N ih =>
    intro s hsz hwf n rest hn hr
    cases s with
    | atom t =>
      obtain ⟨m, rfl⟩ : ∃ m, n = m + 1 := ⟨n - 1, by simp [pfuel] at hn; omega⟩
      obtain ⟨l⟩ := t
      cases l with
      | nil => simp [wfSymex, wfAtomText] at hwf
      | cons c cs =>
        have hwa : wfAtomText ⟨c :: cs⟩ = true := by
          rw [wfSymex] at hwf; exact hwf
        have hcall : is_atom_char c = true ∧ cs.all is_atom_char = true := by
          simpa only [wfAtomText, List.isEmpty_cons, Bool.not_false,
            Bool.and_eq_true, List.all_cons, true_and] using hwa
        have hrl : Symex.renderL (.atom ⟨c :: cs⟩) = c :: cs := rfl
        rw [hrl, List.cons_append]
        simp only [parseWithTail, consumeWhitespace_atomChar hcall.1 (cs ++ rest)]
        have hne : c ≠ '(' := by
          intro h; rw [h] at hcall; exact absurd hcall.1 (by decide)
        rw [if_neg hne, if_pos hcall.1]
        have := parseAtom_render (t := ⟨c :: cs⟩) hwa rest hr
        simpa using this
    | list items =>
      have hwl : wfListAux items = true := by simpa [wfSymex] using hwf
      have hn2 : 2 + pfuelList items ≤ n := by simpa [pfuel] using hn
      obtain ⟨m, rfl⟩ : ∃ m, n = m + 1 := ⟨n - 1, by omega⟩
      obtain ⟨k, rfl⟩ : ∃ k, m = k + 1 := ⟨m - 1, by omega⟩
      have hrl : Symex.renderL (.list items) =
          '(' :: (Symex.renderL.joinItems items ++ [')']) := rfl
      rw [hrl, List.cons_append]
      simp only [parseWithTail, consumeWhitespace_open]
      rw [if_pos trivial]
      simp only [parseListWithTail, consumeWhitespace_open]
      rw [if_pos trivial]
      rw [List.append_assoc]
      have hcb : ∀ x ∈ items, ∀ (n' : Nat) (rest' : List Char), pfuel x ≤ n' →
          (∀ c, rest'.head? = some c → is_atom_char c = false) →
          parseWithTail n' (Symex.renderL x ++ rest') = .ok (x, rest') := by
        intro x hx n' rest' hn' hr'
        have hx1 : sizeOf x < sizeOf items := List.sizeOf_lt_of_mem hx
        have hx2 : sizeOf (Symex.list items) = 1 + sizeOf items := by simp
        exact ih x (by omega) (wfListAux_mem hwl x hx) n' rest' hn' hr'
      have := parseListItems_render items hcb hwl k [] rest (by omega)
      simpa using this

/-- C9: the parser/printer round trip: for every symex all of whose atoms
have non-empty text made of atom characters, parsing the printed form with
any sufficient fuel yields an equal symex. -/
theorem c9_parse_print_roundtrip (s : Symex) (h : wfSymex s = true)
    (n : Nat) (hn : pfuel s ≤ n) :
    SymexParser.parse n (strS s) = .ok s := by
  have hdata : (strS s).data = Symex.renderL s := rfl
  have hmain := parseWithTail_render (sizeOf s) s le_rfl h n [] hn (by intro c hc; simp at hc)
  rw [List.append_nil] at hmain
  have hcw : consumeWhitespace [] = [] := by
    unfold consumeWhitespace
    rfl
  simp only [SymexParser.parse, hdata, hmain, Bind.bind, Except.bind, hcw]

/-- C9 witness: the printed form of `(one () :two)` parses back to it. -/
theorem c9_parse_print_roundtrip_witness :
    SymexParser.parse 20
        (strS (.list [.atom "one", .list [], .atom ":two"])) =
      .ok (.list [.atom "one", .list [], .atom ":two"]) :=
  c9_parse_print_roundtrip (.list [.atom "one", .list [], .atom ":two"])
    (by decide) 20 (by decide)

end PySymex
